/-
Verification of the metadata-enrichment library core against its
natural-language specification.

The definitions below are a shallow embedding of the TypeScript sources:
  - src/enrichment/enrichmentHandler.ts   (EnrichmentHandler, EnrichmentStatus)
  - src/enrichment/enrichmentRecords.ts   (EnrichmentRecords.updateWithResults)
  - src/enrichment/enrichmentMetrics.ts   (EnrichmentMetrics)
  - src/files/lwcProcessor.ts             (LwcProcessor)
  - src/enrichment/constants/index.ts     (endpoint, header and type-map constants)

Modelling conventions:
  - JavaScript arrays and Set iteration order are modelled as Lean lists
    (a JS Set iterates in insertion order).
  - Nullable values are Options; JS `a ?? b` is `jsOrElse`; the JS truthiness
    check `!name` on a string is `truthyStr` (empty string is falsy).
  - Concurrent phases (Promise.all / Promise.allSettled over a mapped array)
    are order-preserving maps, which is exactly the observable behaviour:
    allSettled keeps the index correspondence between inputs and outcomes.
  - The network connection is a function from (url, payload) to a settled
    outcome; the list of issued POSTs is reconstructed alongside.
  - fast-xml-parser trees are modelled by the inductive `XmlValue`/`XmlFields`;
    parse(text) is an external collaborator, so functions take the parsed tree
    (`Option XmlFields`, `none` = parse failure) instead of raw markup text.
-/
import Mathlib

/-! ## JavaScript-style helpers -/

/-- JS `a ?? b` on nullable values: `b` only when `a` is null/undefined. -/
def jsOrElse {α : Type} (a b : Option α) : Option α :=
  match a with
  | some x => some x
  | none => b

/-- JS truthiness filter for a nullable string: empty string is falsy. -/
def truthyStr (a : Option String) : Option String :=
  match a with
  | some s => if s = "" then none else some s
  | none => none

/-- node:path basename, modelled as the last `/`-separated segment (the
suffix after the last slash), computed on the character list. -/
def basename (p : String) : String :=
  String.mk ((p.data.reverse.takeWhile (fun c => c != '/')).reverse)

/-- String suffix test on the character lists. -/
def endsWithData (s suffix : String) : Bool :=
  suffix.data.isSuffixOf s.data

/-- JS String.prototype.toLowerCase, modelled character-wise. -/
def jsToLower (s : String) : String :=
  String.mk (s.data.map Char.toLower)

/-- JS object property assignment on an assoc list: an existing key keeps its
position and gets the new value, a new key is appended. -/
def insertAssoc {α : Type} : List (String × α) → String → α → List (String × α)
  | [], k, v => [(k, v)]
  | (k', v') :: rest, k, v =>
    if k' = k then (k', v) :: rest else (k', v') :: insertAssoc rest k v

/-! ## Data model (src/enrichment/types, src/enrichment/enrichmentHandler.ts) -/

inductive EnrichmentStatus where
  | NOT_PROCESSED
  | SUCCESS
  | FAIL
  | SKIPPED
deriving DecidableEq, Repr

structure MetadataType where
  name : String
deriving DecidableEq, Repr

/-- A JS number carried through the enrichment result. JavaScript stringifies
a number as its shortest round-tripping decimal form; the model identifies the
number with that canonical decimal string (e.g. `0.95` is `⟨"0.95"⟩`), so
`String(n)` is `n.repr`. -/
structure JsNumber where
  repr : String
deriving DecidableEq, Repr

structure EnrichmentResult where
  resourceId : String
  resourceName : String
  metadataType : String
  modelUsed : String
  description : String
  descriptionScore : JsNumber
deriving DecidableEq, Repr

structure EnrichmentMetadata where
  durationMs : Nat
  failureCount : Nat
  successCount : Nat
  timestamp : String
deriving DecidableEq, Repr

structure EnrichMetadataResult where
  metadata : EnrichmentMetadata
  results : List EnrichmentResult
deriving DecidableEq, Repr

structure ContentBundleFile where
  filename : String
  mimeType : String
  content : String
  encoding : String
deriving DecidableEq, Repr

structure ContentBundle where
  resourceName : String
  files : List (String × ContentBundleFile)
deriving DecidableEq, Repr

structure EnrichmentRequestBody where
  contentBundles : List ContentBundle
  metadataType : String
  maxTokens : Nat
deriving DecidableEq, Repr

structure EnrichmentRequestRecord where
  componentName : String
  componentType : Option MetadataType
  requestBody : Option EnrichmentRequestBody
  response : Option EnrichMetadataResult
  message : Option String
  status : EnrichmentStatus
deriving DecidableEq, Repr

/-- FileProcessor.readComponentFile result (src/files/fileProcessor.ts). -/
structure FileReadResult where
  componentName : String
  filePath : String
  fileContents : String
  mimeType : String
deriving DecidableEq, Repr

/-- A source component as consumed by the enrichment handler: identity fields,
native type, and the outcome of `FileProcessor.readComponentFiles` for it (the
file system is an external collaborator, so the read results are data). -/
structure SourceComponent where
  fullName : Option String
  name : Option String
  type : Option MetadataType
  files : List FileReadResult
deriving DecidableEq, Repr

/-! ## Constants (src/enrichment/constants/index.ts) -/

def API_ENDPOINT_ENRICHMENT : String :=
  "/services/data/v66.0/metadata-intelligence/enrichments/on-demand"

def ENRICHMENT_REQUEST_ENTITY_ENCODING_HEADER : String := "X-Chatter-Entity-Encoding"

def METADATA_TYPE_GENERIC : String := "Generic"
def METADATA_TYPE_LWC : String := "Lwc"
def METADATA_TYPE_APEX_CLASS : String := "ApexClass"
def METADATA_TYPE_FLEXIPAGE : String := "Flexipage"

def MAP_SOURCE_COMPONENT_TYPE_TO_METADATA_TYPE : List (String × String) :=
  [("ApexClass", METADATA_TYPE_APEX_CLASS),
   ("Flexipage", METADATA_TYPE_FLEXIPAGE),
   ("LightningComponentBundle", METADATA_TYPE_LWC),
   ("Generic", METADATA_TYPE_GENERIC)]

/-- Lookup in the source-component-type map, with the generic default the
lookup table is documented to fall back to. -/
def mapSourceComponentTypeToMetadataType (sourceType : String) : String :=
  match (MAP_SOURCE_COMPONENT_TYPE_TO_METADATA_TYPE.find? (fun p => p.1 == sourceType)) with
  | some p => p.2
  | none => METADATA_TYPE_GENERIC

def LWC_METADATA_TYPE_NAME : String := "LightningComponentBundle"

/-! ## Message catalog

The `messages/*.md` catalog files are not part of the sources; only the keys
and the substitution tokens passed at each call site are. Each entry is a
static template over its tokens, so a rendered message is a function of the
tokens alone; the concrete template texts below are placeholders and no
theorem depends on their wording. -/

/-- Modelled from the spec: catalog entry `error.enrich.lwc.only`, the fixed
message for ineligible components ("only a specific component type is
eligible"). Takes no tokens. -/
def getMessageErrorEnrichLwcOnly : String :=
  "Enrichment is only supported for LightningComponentBundle components"

/-- Modelled from the spec: catalog entry `error.file.read.failed`, the
explanatory message for a component whose file read yields zero files. Takes
the component name as its only token. -/
def getMessageFileReadFailed (componentName : String) : String :=
  "Failed to read files for component " ++ componentName

/-- Modelled from the spec: catalog entry `error.enrichment.request`, the text
of the SfError thrown when a network request fails. Its only token is the
component name, so the rendered message cannot mention the original error. -/
def getMessageErrorEnrichmentRequest (componentName : String) : String :=
  "Error sending enrichment request for component " ++ componentName

/-- Modelled from the spec: catalog entry `error_parsing_xml`, wrapping the
text of the error caught in `updateMetaXml`. -/
def getMessageErrorParsingXml (innerError : String) : String :=
  "Failed to parse XML: " ++ innerError

/-! ## Network boundary -/

/-- The second argument of `connection.requestPost`: the record's request body
when non-null, otherwise the empty object literal `{}`. -/
inductive RequestPayload where
  | body (b : EnrichmentRequestBody)
  | emptyObject
deriving DecidableEq, Repr

/-- One issued `requestPost` call: URL, payload, and the headers passed via the
options argument (the handler passes no options, hence no headers). -/
structure Post where
  url : String
  payload : RequestPayload
  headers : List (String × String)
deriving DecidableEq, Repr

/-- The connection: maps an issued (url, payload) to the settled outcome of
the promise, `Except.error msg` meaning rejection with an Error whose message
is `msg`. -/
abbrev Net := String → RequestPayload → Except String EnrichMetadataResult

/-! ## EnrichmentHandler (src/enrichment/enrichmentHandler.ts) -/

def createContentBundleFile (file : FileReadResult) : ContentBundleFile :=
  { filename := basename file.filePath
    mimeType := file.mimeType
    content := file.fileContents
    encoding := "PlainText" }

def createContentBundle (componentName : String) (files : List FileReadResult) : ContentBundle :=
  { resourceName := componentName
    files := files.foldl
      (fun acc file =>
        let cbf := createContentBundleFile file
        insertAssoc acc cbf.filename cbf)
      [] }

def createEnrichmentRequestBody (contentBundle : ContentBundle) : EnrichmentRequestBody :=
  { contentBundles := [contentBundle]
    metadataType := "Generic"
    maxTokens := 250 }

/-- Record creation for one component. The caller has already resolved and
truth-checked `componentName` from `fullName ?? name`; the source recomputes
the same value inside. A component with zero read files yields an immediately
SKIPPED record with a null request body, ignoring the passed status/message. -/
def createEnrichmentRequestRecord (componentName : String) (component : SourceComponent)
    (status : Option EnrichmentStatus) (message : Option String) : EnrichmentRequestRecord :=
  if component.files.isEmpty then
    { componentName := componentName
      componentType := component.type
      requestBody := none
      response := none
      message := some (getMessageFileReadFailed componentName)
      status := EnrichmentStatus.SKIPPED }
  else
    let contentBundle := createContentBundle componentName component.files
    let requestBody := createEnrichmentRequestBody contentBundle
    { componentName := componentName
      componentType := component.type
      requestBody := some requestBody
      response := none
      message := message
      status := status.getD EnrichmentStatus.NOT_PROCESSED }

/-- Bulk record creation: components whose `fullName ?? name` is null or empty
are dropped (return null, filtered out). -/
def createEnrichmentRequestRecords (components : List SourceComponent)
    (status : Option EnrichmentStatus) (message : Option String) :
    List EnrichmentRequestRecord :=
  components.filterMap (fun component =>
    match truthyStr (jsOrElse component.fullName component.name) with
    | none => none
    | some componentName =>
      some (createEnrichmentRequestRecord componentName component status message))

/-- The payload `record.requestBody ?? {}` passed to `requestPost`. -/
def payloadOf (record : EnrichmentRequestRecord) : RequestPayload :=
  match record.requestBody with
  | some b => RequestPayload.body b
  | none => RequestPayload.emptyObject

/-- One network call: on fulfilment the record gets the response and SUCCESS;
on rejection the promise rejects with a fresh SfError whose message is built
from the component name only (the original error is not consulted). -/
def sendEnrichmentRequest (net : Net) (record : EnrichmentRequestRecord) :
    Except String EnrichmentRequestRecord :=
  match net API_ENDPOINT_ENRICHMENT (payloadOf record) with
  | Except.ok response =>
    Except.ok { record with response := some response, status := EnrichmentStatus.SUCCESS }
  | Except.error _ =>
    Except.error (getMessageErrorEnrichmentRequest record.componentName)

/-- Promise.allSettled over one call per record (no filtering on the request
body); a rejected call yields the original record with null response, the
rejection message, and FAIL. -/
def sendEnrichmentRequests (net : Net) (records : List EnrichmentRequestRecord) :
    List EnrichmentRequestRecord :=
  records.map (fun record =>
    match sendEnrichmentRequest net record with
    | Except.ok updated => updated
    | Except.error errorMessage =>
      { record with
          response := none
          message := some errorMessage
          status := EnrichmentStatus.FAIL })

/-- The `component.type?.name === LWC_METADATA_TYPE_NAME` classification. -/
def isLwcType (component : SourceComponent) : Bool :=
  match component.type with
  | some t => t.name == LWC_METADATA_TYPE_NAME
  | none => false

def lwcRecords (components : List SourceComponent) : List EnrichmentRequestRecord :=
  createEnrichmentRequestRecords (components.filter isLwcType) none none

def nonLwcRecords (components : List SourceComponent) : List EnrichmentRequestRecord :=
  createEnrichmentRequestRecords (components.filter (fun c => !(isLwcType c)))
    (some EnrichmentStatus.SKIPPED) (some getMessageErrorEnrichLwcOnly)

/-- EnrichmentHandler.enrich: partition, create records, send one POST per
eligible record, and concatenate eligible results before ineligible SKIPPED
records. -/
def enrich (net : Net) (components : List SourceComponent) : List EnrichmentRequestRecord :=
  sendEnrichmentRequests net (lwcRecords components) ++ nonLwcRecords components

/-- The requestPost call issued for one record in `sendEnrichmentRequests`:
fixed endpoint, `record.requestBody ?? {}` as body, and no options argument,
hence no caller-supplied headers. -/
def postOf (record : EnrichmentRequestRecord) : Post :=
  { url := API_ENDPOINT_ENRICHMENT
    payload := payloadOf record
    headers := [] }

/-- The network POSTs issued during `enrich`: exactly one per record handed to
`sendEnrichmentRequests`, i.e. one per eligible record (Promise.allSettled
starts every call unconditionally, before any outcome is known). -/
def enrichPosts (components : List SourceComponent) : List Post :=
  (lwcRecords components).map postOf

/-! ## EnrichmentRecords.updateWithResults (src/enrichment/enrichmentRecords.ts) -/

/-- `new Map(results.map(r => [r.componentName, r]))` followed by `.get name`:
the last list entry with a given key wins. -/
def resultsLookup (results : List EnrichmentRequestRecord) (componentName : String) :
    Option EnrichmentRequestRecord :=
  results.reverse.find? (fun r => r.componentName == componentName)

/-- Merge network outcomes into the record set (modelled in Set-insertion
order): a matched record gets the incoming requestBody/response/message, and
its status — checked before the message write, against the pre-merge status —
becomes SUCCESS/FAIL from the incoming response unless it is SKIPPED. -/
def updateWithResults (recordSet : List EnrichmentRequestRecord)
    (results : List EnrichmentRequestRecord) : List EnrichmentRequestRecord :=
  recordSet.map (fun record =>
    match resultsLookup results record.componentName with
    | none => record
    | some processedResult =>
      { record with
          requestBody := processedResult.requestBody
          response := processedResult.response
          status :=
            if record.status = EnrichmentStatus.SKIPPED then record.status
            else if processedResult.response.isSome then EnrichmentStatus.SUCCESS
            else EnrichmentStatus.FAIL
          message := processedResult.message })

/-! ## EnrichmentMetrics (src/enrichment/enrichmentMetrics.ts) -/

structure ComponentEnrichmentStatus where
  typeName : String
  componentName : String
  message : String
deriving DecidableEq, Repr

structure MetricsBucket where
  count : Nat
  components : List ComponentEnrichmentStatus
deriving DecidableEq, Repr

structure EnrichmentMetrics where
  success : MetricsBucket
  fail : MetricsBucket
  skipped : MetricsBucket
  total : Nat
deriving DecidableEq, Repr

def emptyEnrichmentMetrics : EnrichmentMetrics :=
  { success := { count := 0, components := [] }
    fail := { count := 0, components := [] }
    skipped := { count := 0, components := [] }
    total := 0 }

def addSuccessComponent (m : EnrichmentMetrics) (c : ComponentEnrichmentStatus) :
    EnrichmentMetrics :=
  { m with
      success := { count := m.success.count + 1, components := m.success.components ++ [c] }
      total := m.total + 1 }

def addFailComponent (m : EnrichmentMetrics) (c : ComponentEnrichmentStatus) :
    EnrichmentMetrics :=
  { m with
      fail := { count := m.fail.count + 1, components := m.fail.components ++ [c] }
      total := m.total + 1 }

def addSkippedComponent (m : EnrichmentMetrics) (c : ComponentEnrichmentStatus) :
    EnrichmentMetrics :=
  { m with
      skipped := { count := m.skipped.count + 1, components := m.skipped.components ++ [c] }
      total := m.total + 1 }

/-- The `typeName` computed for a record: the componentType's name when the
componentType object is present, else the first response result's
metadataType, else the empty string. -/
def typeNameOf (record : EnrichmentRequestRecord) : String :=
  match record.componentType with
  | some t => t.name
  | none =>
    match record.response with
    | some response =>
      match response.results.head? with
      | some res => res.metadataType
      | none => ""
    | none => ""

def metricsMessageOf (record : EnrichmentRequestRecord) : String :=
  match record.message with
  | some m => m
  | none => if record.status = EnrichmentStatus.SUCCESS then "" else "Enrichment request failed"

def metricsStep (m : EnrichmentMetrics) (record : EnrichmentRequestRecord) :
    EnrichmentMetrics :=
  let typeName := typeNameOf record
  if typeName = "" then m
  else
    let component : ComponentEnrichmentStatus :=
      { typeName := typeName
        componentName := record.componentName
        message := metricsMessageOf record }
    match record.status with
    | EnrichmentStatus.SUCCESS => addSuccessComponent m component
    | EnrichmentStatus.SKIPPED => addSkippedComponent m component
    | _ => addFailComponent m component

/-- EnrichmentMetrics.createEnrichmentMetrics: records whose typeName cannot
be determined are skipped (`continue`), all others are bucketed by status. -/
def createEnrichmentMetrics (enrichmentResults : List EnrichmentRequestRecord) :
    EnrichmentMetrics :=
  enrichmentResults.foldl metricsStep emptyEnrichmentMetrics

/-! ## Parsed XML trees (fast-xml-parser collaborator model)

The parser (XMLParser with `ignoreAttributes: false, preserveOrder: false,
trimValues: true`) returns a plain JS object: element names map to nested
objects, text-only elements map to strings (or booleans/numbers after tag
value parsing). `parse(text)` itself is an external collaborator, so the
processor functions below take the parsed tree; `none` stands for a thrown
parse error. -/

mutual
inductive XmlValue where
  | str (s : String)
  | bool (b : Bool)
  | num (repr : String)
  | obj (fields : XmlFields)

inductive XmlFields where
  | nil
  | cons (key : String) (value : XmlValue) (rest : XmlFields)
end

/-- JS property read `o[k]` (undefined when absent or when `o` is not an
object — property access on a primitive yields undefined). -/
def getField (k : String) : XmlValue → Option XmlValue
  | XmlValue.obj fields => XmlFields.lookup fields k
  | _ => none
where XmlFields.lookup : XmlFields → String → Option XmlValue
  | XmlFields.nil, _ => none
  | XmlFields.cons k' v rest, k => if k' = k then some v else XmlFields.lookup rest k

/-- JS property assignment `o[k] = v`: existing key keeps its position, new
key is appended. -/
def XmlFields.insertJs : XmlFields → String → XmlValue → XmlFields
  | XmlFields.nil, k, v => XmlFields.cons k v XmlFields.nil
  | XmlFields.cons k' v' rest, k, v =>
    if k' = k then XmlFields.cons k' v rest
    else XmlFields.cons k' v' (XmlFields.insertJs rest k v)

/-- JS truthiness of a parsed value. -/
def jsTruthy : XmlValue → Bool
  | XmlValue.str s => s ≠ ""
  | XmlValue.bool b => b
  | XmlValue.num r => !(r = "0" || r = "-0" || r = "NaN")
  | XmlValue.obj _ => true

/-- JS `String(v)` on a parsed value. -/
def jsStringOf : XmlValue → String
  | XmlValue.str s => s
  | XmlValue.bool b => if b then "true" else "false"
  | XmlValue.num r => r
  | XmlValue.obj _ => "[object Object]"

/-! ## XMLBuilder collaborator model

`build(tree)` (XMLBuilder with `ignoreAttributes: false, format: true`) is an
external collaborator; it is modelled as plain tag emission, one element per
line: a leaf renders its text between its tags, an object value renders its
fields on subsequent lines. The model works on character lists to keep the
text-normalization proofs elementary. -/

mutual
def buildValue : XmlValue → List Char
  | XmlValue.str s => s.data
  | XmlValue.bool b => if b then "true".data else "false".data
  | XmlValue.num r => r.data
  | XmlValue.obj fields => '\n' :: renderFields fields

def renderFields : XmlFields → List Char
  | XmlFields.nil => []
  | XmlFields.cons k v rest =>
    '<' :: (k.data ++ '>' :: (buildValue v ++ '<' :: '/' :: (k.data ++ '>' :: '\n' :: renderFields rest)))
end

def buildXml (top : XmlFields) : List Char := renderFields top

/-! ## Text normalization (`builtXml.trim().replace(/\n{3,}/g, '\n\n')`) -/

def isJsWS (c : Char) : Bool :=
  c == ' ' || c == '\t' || c == '\n' || c == '\r'

/-- JS String.prototype.trim: drop whitespace from both ends. -/
def jsTrim (l : List Char) : List Char :=
  (((l.dropWhile isJsWS).reverse).dropWhile isJsWS).reverse

/-- The regex replace `/\n{3,}/g → "\n\n"`, as a scan: `k` counts the
newlines of the current run already emitted; newlines past the second of a
run are dropped. -/
def collapseNl (k : Nat) : List Char → List Char
  | [] => []
  | c :: rest =>
    if c = '\n' then
      if k ≥ 2 then collapseNl (k + 1) rest
      else '\n' :: collapseNl (k + 1) rest
    else c :: collapseNl 0 rest

/-! ## LwcProcessor (src/files/lwcProcessor.ts) -/

def isMetaXmlFile (filePath : String) : Bool :=
  endsWithData (basename filePath) ".js-meta.xml"

/-- The parsed-content view of one file returned by
`LwcProcessor.readComponentFiles`: `parsed` is the tree the XMLParser yields
for `fileContents` (`none`: the parse throws). -/
structure LwcFileRead where
  componentName : String
  filePath : String
  parsed : Option XmlFields

/-- The `LightningComponentBundle?.ai?.skipUplift` optional-chain read. -/
def lookupSkipUplift (top : XmlFields) : Option XmlValue :=
  ((getField "LightningComponentBundle" (XmlValue.obj top)).bind (getField "ai")).bind
    (getField "skipUplift")

/-- LwcProcessor.isSkipUpliftEnabled: true when the flag is boolean true or
when `String(flag).toLowerCase()` is "true"; a parse error yields false. -/
def isSkipUpliftEnabled (parsed : Option XmlFields) : Bool :=
  match parsed with
  | none => false
  | some top =>
    match lookupSkipUplift top with
    | none => false
    | some v =>
      (match v with | XmlValue.bool true => true | _ => false) ||
        jsToLower (jsStringOf v) == "true"

/-- The `ai` sub-structure injected by updateMetaXml. -/
def aiFieldsOf (result : EnrichmentResult) : XmlFields :=
  XmlFields.cons "skipUplift" (XmlValue.str "false")
    (XmlFields.cons "description" (XmlValue.str result.description)
      (XmlFields.cons "score" (XmlValue.str result.descriptionScore.repr) XmlFields.nil))

/-- LwcProcessor.updateMetaXml. A parse failure throws (wrapped SfError); a
truthy non-object at the bundle key makes the strict-mode property assignment
throw a TypeError, caught by the same wrapper. Otherwise the `ai` field of
the (possibly freshly created) bundle object is overwritten and the tree is
rebuilt, trimmed, and newline-collapsed. -/
def updateMetaXml (parsed : Option XmlFields) (result : EnrichmentResult) :
    Except String String :=
  match parsed with
  | none => Except.error (getMessageErrorParsingXml "XML parse error")
  | some top =>
    let finish : XmlFields → Except String String := fun bundleFields =>
      let top' := top.insertJs "LightningComponentBundle" (XmlValue.obj bundleFields)
      Except.ok (String.mk (collapseNl 0 (jsTrim (buildXml top'))))
    match getField "LightningComponentBundle" (XmlValue.obj top) with
    | some (XmlValue.obj bundleFields) =>
      finish (bundleFields.insertJs "ai" (XmlValue.obj (aiFieldsOf result)))
    | some v =>
      if jsTruthy v then Except.error (getMessageErrorParsingXml "TypeError")
      else finish (XmlFields.nil.insertJs "ai" (XmlValue.obj (aiFieldsOf result)))
    | none => finish (XmlFields.nil.insertJs "ai" (XmlValue.obj (aiFieldsOf result)))

/-- One iteration of the updateMetadataFiles loop for one read file: returns
the updated record list and the writes this file performs ([] or one). The
record found is the first with the file's componentName (Set iteration
order); a record with a falsy (null) response, or without a first result, is
skipped; the skipUplift gate comes before the write attempt. -/
def processFile (file : LwcFileRead) (records : List EnrichmentRequestRecord) :
    List EnrichmentRequestRecord × List (String × String) :=
  if !(isMetaXmlFile file.filePath) then (records, [])
  else
    match records.findIdx? (fun r => r.componentName == file.componentName) with
    | none => (records, [])
    | some i =>
      match records[i]? with
      | none => (records, [])
      | some record =>
        match record.response with
        | none => (records, [])
        | some response =>
          match response.results.head? with
          | none => (records, [])
          | some enrichmentResult =>
            if isSkipUpliftEnabled file.parsed then
              (records.set i
                { record with
                    message := some "skipUplift is set to true"
                    status := EnrichmentStatus.SKIPPED }, [])
            else
              match updateMetaXml file.parsed enrichmentResult with
              | Except.ok updatedXml => (records, [(file.filePath, updatedXml)])
              | Except.error errorMessage =>
                (records.set i { record with message := some errorMessage }, [])

/-- LwcProcessor.updateMetadataFiles: fold the per-file step over the read
files, threading the record set and accumulating the file writes. -/
def updateMetadataFiles (files : List LwcFileRead)
    (records : List EnrichmentRequestRecord) :
    List EnrichmentRequestRecord × List (String × String) :=
  files.foldl
    (fun acc file =>
      let step := processFile file acc.1
      (step.1, acc.2 ++ step.2))
    (records, [])

/-! ## Character-run helpers for the normalization proofs -/

/-- Length of the leading newline run. -/
def leadNl : List Char → Nat
  | [] => 0
  | c :: rest => if c = '\n' then leadNl rest + 1 else 0

/-- Whether the text contains a run of three or more consecutive newlines
(the pattern the regex `/\n{3,}/g` rewrites). -/
def hasTriple : List Char → Bool
  | [] => false
  | c :: rest => (decide (c = '\n') && decide (2 ≤ leadNl rest)) || hasTriple rest

/-- The characters one field contributes to `renderFields`. -/
def renderTag (k : String) (v : XmlValue) : List Char :=
  '<' :: (k.data ++ '>' :: (buildValue v ++ '<' :: '/' :: (k.data ++ ['>', '\n'])))

/-- The round-trip claim precondition "markup lacking the enrichment
sub-structure": the bundle element is absent, falsy (e.g. an empty element),
or an element object without an `ai` field. -/
def lacksEnrichmentSubstructure (top : XmlFields) : Bool :=
  match getField "LightningComponentBundle" (XmlValue.obj top) with
  | none => true
  | some (XmlValue.obj fs) =>
    match getField "ai" (XmlValue.obj fs) with
    | none => true
    | some _ => false
  | some v => !(jsTruthy v)

/-- The markup text built by `updateMetaXml` before trim/collapse, when the
bundle element object is `bf` (or freshly created when `bf` is empty). -/
def builtOf (top bf : XmlFields) (r : EnrichmentResult) : List Char :=
  buildXml (top.insertJs "LightningComponentBundle"
    (XmlValue.obj (bf.insertJs "ai" (XmlValue.obj (aiFieldsOf r)))))

/-- The final markup text produced on the success path of `updateMetaXml`. -/
def patchedOut (top bf : XmlFields) (r : EnrichmentResult) : List Char :=
  collapseNl 0 (jsTrim (builtOf top bf r))

/-! ## Concrete fixtures used by witnesses and counterexamples -/

def lwcType : MetadataType := { name := "LightningComponentBundle" }

def sampleResult : EnrichmentResult :=
  { resourceId := "id-1", resourceName := "cmp", metadataType := "Lwc"
    modelUsed := "model", description := "A test description"
    descriptionScore := { repr := "0.95" } }

def sampleResponse : EnrichMetadataResult :=
  { metadata := { durationMs := 100, failureCount := 0, successCount := 1
                  timestamp := "2026-01-27T00:00:00Z" }
    results := [sampleResult] }

def fileA : FileReadResult :=
  { componentName := "cmp", filePath := "cmp/test.js"
    fileContents := "console.log(1);", mimeType := "application/javascript" }

def compWithFile : SourceComponent :=
  { fullName := some "cmp", name := some "cmp", type := some lwcType, files := [fileA] }

def compNoFiles : SourceComponent :=
  { fullName := some "cmp", name := some "cmp", type := some lwcType, files := [] }

def okNet : Net := fun _ _ => Except.ok sampleResponse

def failNet (errorText : String) : Net := fun _ _ => Except.error errorText

def mkLwcComp (n : String) : SourceComponent :=
  { fullName := some n, name := some n, type := some lwcType
    files := [{ componentName := n, filePath := n ++ "/x.js", fileContents := "code"
                mimeType := "application/javascript" }] }

/-- A connection that rejects exactly the POST whose payload is comp2's
request body (with the given error text) and fulfils every other call. -/
def netFailSecond (errorText : String) : Net := fun _ p =>
  if p = RequestPayload.body
      (createEnrichmentRequestBody (createContentBundle "comp2" (mkLwcComp "comp2").files))
  then Except.error errorText
  else Except.ok sampleResponse

def comps3 : List SourceComponent := [mkLwcComp "comp1", mkLwcComp "comp2", mkLwcComp "comp3"]

/-- A parsed js-meta.xml tree with the opt-out flag set to the string "true". -/
def cfgTopSkip : XmlFields :=
  XmlFields.cons "LightningComponentBundle"
    (XmlValue.obj (XmlFields.cons "ai"
      (XmlValue.obj (XmlFields.cons "skipUplift" (XmlValue.str "true") XmlFields.nil))
      XmlFields.nil))
    XmlFields.nil

def fileSkip : LwcFileRead :=
  { componentName := "cmp", filePath := "cmp/x.js-meta.xml", parsed := some cfgTopSkip }

def recSuccess : EnrichmentRequestRecord :=
  { componentName := "cmp", componentType := some lwcType, requestBody := none
    response := some sampleResponse, message := none, status := EnrichmentStatus.SUCCESS }

/-- A parsed tree whose bundle element is an empty (falsy) text element. -/
def cexTop : XmlFields :=
  XmlFields.cons "LightningComponentBundle" (XmlValue.str "") XmlFields.nil

/-- An enrichment result whose description contains a run of three newlines. -/
def cexResult : EnrichmentResult :=
  { resourceId := "id", resourceName := "cmp", metadataType := "Lwc", modelUsed := "m"
    description := "a\n\n\nb", descriptionScore := { repr := "0.9" } }

def recSkip : EnrichmentRequestRecord :=
  { componentName := "c1", componentType := some lwcType, requestBody := none
    response := none, message := some "was skipped", status := EnrichmentStatus.SKIPPED }

def recIncoming : EnrichmentRequestRecord :=
  { componentName := "c1", componentType := some lwcType, requestBody := none
    response := some sampleResponse, message := some "merged"
    status := EnrichmentStatus.SUCCESS }

def recNoType : EnrichmentRequestRecord :=
  { componentName := "c", componentType := none, requestBody := none
    response := none, message := none, status := EnrichmentStatus.NOT_PROCESSED }

/-! ## Helper lemmas: segments, newline runs, collapse, trim -/

theorem seg_append_left {sub m : List Char} (pre : List Char) (h : sub <:+: m) :
    sub <:+: pre ++ m := by
  obtain ⟨a, b, e⟩ := h
  exact ⟨pre ++ a, b, by simp [← e]⟩

theorem seg_append_right {sub m : List Char} (post : List Char) (h : sub <:+: m) :
    sub <:+: m ++ post := by
  obtain ⟨a, b, e⟩ := h
  exact ⟨a, b ++ post, by simp [← e]⟩

theorem seg_cons {sub l : List Char} (c : Char) (h : sub <:+: l) : sub <:+: c :: l := by
  simpa using seg_append_left [c] h

theorem seg_cons_iff {sub l : List Char} {c : Char} :
    sub <:+: c :: l ↔ sub <+: c :: l ∨ sub <:+: l := by
  constructor
  · rintro ⟨a, b, e⟩
    cases a with
    | nil => exact Or.inl ⟨b, by simpa using e⟩
    | cons a0 a' =>
      cases e
      exact Or.inr ⟨a', b, rfl⟩
  · rintro (⟨t, e⟩ | h)
    · exact ⟨[], t, by simpa using e⟩
    · exact seg_cons c h

theorem leadNl_cons (c : Char) (rest : List Char) :
    leadNl (c :: rest) = if c = '\n' then leadNl rest + 1 else 0 := rfl

theorem hasTriple_cons (c : Char) (rest : List Char) :
    hasTriple (c :: rest) =
      ((decide (c = '\n') && decide (2 ≤ leadNl rest)) || hasTriple rest) := rfl

theorem hasTriple_rest {c : Char} {rest : List Char} (h : hasTriple (c :: rest) = false) :
    hasTriple rest = false := by
  rw [hasTriple_cons] at h
  exact (Bool.or_eq_false_iff.mp h).2

theorem leadNl_le_one_of_nl {rest : List Char} (h : hasTriple ('\n' :: rest) = false) :
    leadNl rest ≤ 1 := by
  rw [hasTriple_cons] at h
  have h1 := (Bool.or_eq_false_iff.mp h).1
  simp only [Bool.and_eq_false_iff, decide_eq_false_iff_not] at h1
  rcases h1 with h1 | h1
  · simp at h1
  · omega

theorem leadNl_le_two {p : List Char} (h : hasTriple p = false) : leadNl p ≤ 2 := by
  cases p with
  | nil => simp [leadNl]
  | cons c rest =>
    rw [leadNl_cons]
    by_cases hc : c = '\n'
    · subst hc
      have := leadNl_le_one_of_nl h
      simp
      omega
    · simp [hc]

theorem leadNl_eq_zero_of_head {l : List Char} {c : Char}
    (h : l.head? = some c) (hc : c ≠ '\n') : leadNl l = 0 := by
  cases l with
  | nil => simp at h
  | cons x rest =>
    simp only [List.head?_cons, Option.some.injEq] at h
    subst h
    simp [leadNl_cons, hc]

theorem leadNl_eq_zero_of_nlfree {l : List Char} (h : ∀ c ∈ l, c ≠ '\n') :
    leadNl l = 0 := by
  cases l with
  | nil => rfl
  | cons x rest => simp [leadNl_cons, h x (by simp)]

theorem hasTriple_eq_false_of_nlfree {l : List Char} (h : ∀ c ∈ l, c ≠ '\n') :
    hasTriple l = false := by
  induction l with
  | nil => rfl
  | cons x rest ih =>
    rw [hasTriple_cons]
    simp only [Bool.or_eq_false_iff]
    refine ⟨?_, ih (fun c hc => h c (by simp [hc]))⟩
    simp [h x (by simp)]

theorem leadNl_append_nlfree_right {d b : List Char} (hb : ∀ c ∈ b, c ≠ '\n') :
    leadNl (d ++ b) = leadNl d := by
  induction d with
  | nil => simpa [leadNl] using leadNl_eq_zero_of_nlfree hb
  | cons x d' ih => simp [leadNl_cons, ih]

theorem hasTriple_append_nlfree_left {a m : List Char} (ha : ∀ c ∈ a, c ≠ '\n') :
    hasTriple (a ++ m) = hasTriple m := by
  induction a with
  | nil => rfl
  | cons x a' ih =>
    have hx : x ≠ '\n' := ha x (by simp)
    rw [List.cons_append, hasTriple_cons, ih (fun c hc => ha c (by simp [hc]))]
    simp [hx]

theorem hasTriple_append_nlfree_right {d b : List Char}
    (hd : hasTriple d = false) (hb : ∀ c ∈ b, c ≠ '\n') :
    hasTriple (d ++ b) = false := by
  induction d with
  | nil => simpa using hasTriple_eq_false_of_nlfree hb
  | cons x d' ih =>
    rw [List.cons_append, hasTriple_cons]
    simp only [Bool.or_eq_false_iff]
    refine ⟨?_, ih (hasTriple_rest hd)⟩
    by_cases hx : x = '\n'
    · subst hx
      have h1 : leadNl d' ≤ 1 := leadNl_le_one_of_nl hd
      rw [leadNl_append_nlfree_right hb]
      simp
      omega
    · simp [hx]

theorem hasTriple_wrap {a d b : List Char} (ha : ∀ c ∈ a, c ≠ '\n')
    (hd : hasTriple d = false) (hb : ∀ c ∈ b, c ≠ '\n') :
    hasTriple (a ++ (d ++ b)) = false := by
  rw [hasTriple_append_nlfree_left ha]
  exact hasTriple_append_nlfree_right hd hb

theorem collapseNl_nil (k : Nat) : collapseNl k [] = [] := rfl

theorem collapseNl_cons (k : Nat) (c : Char) (rest : List Char) :
    collapseNl k (c :: rest) =
      if c = '\n' then
        if k ≥ 2 then collapseNl (k + 1) rest else '\n' :: collapseNl (k + 1) rest
      else c :: collapseNl 0 rest := rfl

theorem collapseNl_cons_nl_ge {k : Nat} (rest : List Char) (hk : k ≥ 2) :
    collapseNl k ('\n' :: rest) = collapseNl (k + 1) rest := by
  rw [collapseNl_cons, if_pos rfl, if_pos hk]

theorem collapseNl_cons_nl_lt {k : Nat} (rest : List Char) (hk : ¬ k ≥ 2) :
    collapseNl k ('\n' :: rest) = '\n' :: collapseNl (k + 1) rest := by
  rw [collapseNl_cons, if_pos rfl, if_neg hk]

theorem collapseNl_cons_ne {c : Char} (hc : c ≠ '\n') (k : Nat) (rest : List Char) :
    collapseNl k (c :: rest) = c :: collapseNl 0 rest := by
  rw [collapseNl_cons, if_neg hc]

theorem leadNl_cons_nl (rest : List Char) : leadNl ('\n' :: rest) = leadNl rest + 1 := by
  simp [leadNl_cons]

theorem leadNl_cons_ne {c : Char} (hc : c ≠ '\n') (rest : List Char) :
    leadNl (c :: rest) = 0 := by
  simp [leadNl_cons, hc]

theorem hasTriple_cons_nl (rest : List Char) :
    hasTriple ('\n' :: rest) = (decide (2 ≤ leadNl rest) || hasTriple rest) := by
  simp [hasTriple_cons]

theorem hasTriple_cons_ne {c : Char} (hc : c ≠ '\n') (rest : List Char) :
    hasTriple (c :: rest) = hasTriple rest := by
  simp [hasTriple_cons, hc]

theorem startsWith_collapseNl : ∀ (p : List Char), hasTriple p = false →
    ∀ (k : Nat) (l : List Char), (leadNl p = 0 ∨ k + leadNl p ≤ 2) → p <+: l →
    p <+: collapseNl k l := by
  intro p
  induction p with
  | nil => intro _ k l _ _; exact ⟨collapseNl k l, rfl⟩
  | cons c p' ih =>
    intro hp k l hk h
    obtain ⟨t, ht⟩ := h
    subst ht
    by_cases hc : c = '\n'
    · subst hc
      have hk2 : k + leadNl p' + 1 ≤ 2 := by
        rcases hk with hk | hk
        · rw [leadNl_cons_nl] at hk
          omega
        · rw [leadNl_cons_nl] at hk
          omega
      rw [List.cons_append, collapseNl_cons_nl_lt _ (by omega)]
      obtain ⟨u, hu⟩ :=
        ih (hasTriple_rest hp) (k + 1) (p' ++ t) (Or.inr (by omega)) ⟨t, rfl⟩
      exact ⟨u, by simp [← hu]⟩
    · rw [List.cons_append, collapseNl_cons_ne hc]
      have hlp' : leadNl p' ≤ 2 := leadNl_le_two (hasTriple_rest hp)
      obtain ⟨u, hu⟩ := ih (hasTriple_rest hp) 0 (p' ++ t) (Or.inr (by omega)) ⟨t, rfl⟩
      exact ⟨u, by simp [← hu]⟩

theorem seg_collapseNl {sub : List Char} (hs : hasTriple sub = false)
    (hh : sub.head? ≠ some '\n') :
    ∀ (l : List Char) (k : Nat), sub <:+: l → sub <:+: collapseNl k l := by
  intro l
  induction l with
  | nil =>
    intro k h
    simpa [collapseNl_nil] using h
  | cons c l' ih =>
    intro k h
    rcases seg_cons_iff.mp h with hpre | hseg
    · have hlead : leadNl sub = 0 ∨ k + leadNl sub ≤ 2 := by
        cases sub with
        | nil => exact Or.inl rfl
        | cons s0 s' =>
          have hs0 : s0 ≠ '\n' := by
            intro e
            exact hh (by simp [e])
          exact Or.inl (leadNl_cons_ne hs0 s')
      exact (startsWith_collapseNl sub hs k (c :: l') hlead hpre).isInfix
    · by_cases hc : c = '\n'
      · subst hc
        by_cases hk : k ≥ 2
        · rw [collapseNl_cons_nl_ge _ hk]
          exact ih (k + 1) hseg
        · rw [collapseNl_cons_nl_lt _ hk]
          exact seg_cons _ (ih (k + 1) hseg)
      · rw [collapseNl_cons_ne hc]
        exact seg_cons _ (ih 0 hseg)

theorem hasTriple_collapseNl : ∀ (l : List Char) (k : Nat),
    hasTriple (collapseNl k l) = false ∧ leadNl (collapseNl k l) + min k 2 ≤ 2 := by
  intro l
  induction l with
  | nil =>
    intro k
    refine ⟨rfl, ?_⟩
    have h0 : leadNl (collapseNl k []) = 0 := rfl
    omega
  | cons c l' ih =>
    intro k
    by_cases hc : c = '\n'
    · subst hc
      by_cases hk : k ≥ 2
      · rw [collapseNl_cons_nl_ge _ hk]
        obtain ⟨h1, h2⟩ := ih (k + 1)
        exact ⟨h1, by omega⟩
      · rw [collapseNl_cons_nl_lt _ hk]
        obtain ⟨h1, h2⟩ := ih (k + 1)
        constructor
        · rw [hasTriple_cons_nl]
          simp only [Bool.or_eq_false_iff]
          refine ⟨by simp; omega, h1⟩
        · rw [leadNl_cons_nl]
          omega
    · rw [collapseNl_cons_ne hc]
      obtain ⟨h1, h2⟩ := ih 0
      constructor
      · rw [hasTriple_cons_ne hc]
        exact h1
      · rw [leadNl_cons_ne hc]
        omega

theorem getLast?_cons_of_ne_nil {x : Char} {t : List Char} (h : t ≠ []) :
    (x :: t).getLast? = t.getLast? := by
  cases t with
  | nil => exact absurd rfl h
  | cons y r => exact List.getLast?_cons_cons

theorem collapseNl_getLast {c : Char} (hc : c ≠ '\n') :
    ∀ (l : List Char) (k : Nat), l.getLast? = some c →
    (collapseNl k l).getLast? = some c := by
  intro l
  induction l with
  | nil => intro k h; simp at h
  | cons x l' ih =>
    intro k h
    cases l' with
    | nil =>
      simp only [List.getLast?_singleton, Option.some.injEq] at h
      subst h
      rw [collapseNl_cons_ne hc, collapseNl_nil]
      rfl
    | cons y r =>
      have hl : (y :: r).getLast? = some c := by rwa [List.getLast?_cons_cons] at h
      by_cases hx : x = '\n'
      · subst hx
        by_cases hk : k ≥ 2
        · rw [collapseNl_cons_nl_ge _ hk]
          exact ih (k + 1) hl
        · rw [collapseNl_cons_nl_lt _ hk]
          have hrec := ih (k + 1) hl
          have hne : collapseNl (k + 1) (y :: r) ≠ [] := by
            intro e
            rw [e] at hrec
            simp at hrec
          rw [getLast?_cons_of_ne_nil hne]
          exact hrec
      · rw [collapseNl_cons_ne hx]
        have hrec := ih 0 hl
        have hne : collapseNl 0 (y :: r) ≠ [] := by
          intro e
          rw [e] at hrec
          simp at hrec
        rw [getLast?_cons_of_ne_nil hne]
        exact hrec

theorem collapseNl_head {c : Char} (hc : c ≠ '\n') (k : Nat) (l' : List Char) :
    (collapseNl k (c :: l')).head? = some c := by
  rw [collapseNl_cons_ne hc]
  rfl

theorem head?_dropWhile_not {p : Char → Bool} :
    ∀ (l : List Char) {c : Char}, (l.dropWhile p).head? = some c → p c = false := by
  intro l
  induction l with
  | nil => intro c h; simp [List.dropWhile] at h
  | cons x l' ih =>
    intro c h
    rw [List.dropWhile_cons] at h
    by_cases hx : p x
    · rw [if_pos hx] at h
      exact ih h
    · rw [if_neg hx] at h
      simp only [List.head?_cons, Option.some.injEq] at h
      subst h
      exact Bool.not_eq_true _ ▸ (by simpa using hx)

theorem rev_dropWhile_split (p : Char → Bool) (y : List Char) :
    y = (y.reverse.dropWhile p).reverse ++ (y.reverse.takeWhile p).reverse := by
  have h0 : y.reverse.takeWhile p ++ y.reverse.dropWhile p = y.reverse :=
    List.takeWhile_append_dropWhile p y.reverse
  calc y = y.reverse.reverse := (List.reverse_reverse y).symm
  _ = (y.reverse.takeWhile p ++ y.reverse.dropWhile p).reverse := by rw [h0]
  _ = (y.reverse.dropWhile p).reverse ++ (y.reverse.takeWhile p).reverse :=
    List.reverse_append _ _

theorem jsTrim_head {l : List Char} {c : Char} (h : (jsTrim l).head? = some c) :
    isJsWS c = false := by
  unfold jsTrim at h
  have hAhead : (l.dropWhile isJsWS).head? = some c := by
    rw [rev_dropWhile_split isJsWS (l.dropWhile isJsWS), List.head?_append, h]
    rfl
  exact head?_dropWhile_not l hAhead

theorem jsTrim_getLast {l : List Char} {c : Char} (h : (jsTrim l).getLast? = some c) :
    isJsWS c = false := by
  unfold jsTrim at h
  rw [List.getLast?_reverse] at h
  exact head?_dropWhile_not _ h

theorem seg_dropWhile {p : Char → Bool} {sub : List Char}
    (hh : ∀ c, sub.head? = some c → p c = false) :
    ∀ (l : List Char), sub <:+: l → sub <:+: l.dropWhile p := by
  intro l
  induction l with
  | nil => intro h; simpa using h
  | cons x l' ih =>
    intro h
    rw [List.dropWhile_cons]
    by_cases hx : p x
    · rw [if_pos hx]
      rcases seg_cons_iff.mp h with hpre | hseg
      · cases sub with
        | nil => exact ⟨[], l'.dropWhile p, by simp⟩
        | cons s0 s' =>
          obtain ⟨t, ht⟩ := hpre
          have hs0 : s0 = x := by
            cases ht
            rfl
          have := hh s0 rfl
          rw [hs0, hx] at this
          exact absurd this (by simp)
      · exact ih hseg
    · rw [if_neg hx]
      exact h

theorem seg_jsTrim {sub l : List Char}
    (hhead : ∀ c, sub.head? = some c → isJsWS c = false)
    (hlast : ∀ c, sub.getLast? = some c → isJsWS c = false)
    (h : sub <:+: l) : sub <:+: jsTrim l := by
  unfold jsTrim
  have h1 : sub <:+: l.dropWhile isJsWS := seg_dropWhile hhead l h
  have h2 : sub.reverse <:+: (l.dropWhile isJsWS).reverse := by
    rw [List.reverse_infix]
    exact h1
  have h3 : sub.reverse <:+: (l.dropWhile isJsWS).reverse.dropWhile isJsWS :=
    seg_dropWhile (fun c hc => hlast c (by rwa [List.head?_reverse] at hc)) _ h2
  exact List.reverse_infix.mp (by simpa using h3)

theorem getLast?_append_right {s t : List Char} (h : t ≠ []) :
    (s ++ t).getLast? = t.getLast? := by
  rw [← List.head?_reverse, List.reverse_append, List.head?_append,
    List.head?_reverse, ← List.head?_reverse t]
  cases hg : t.reverse.head? with
  | none =>
    exfalso
    apply h
    have := List.head?_eq_none_iff.mp hg
    simpa using congrArg List.reverse this
  | some x => rfl

theorem renderFields_cons (k : String) (v : XmlValue) (rest : XmlFields) :
    renderFields (XmlFields.cons k v rest) = renderTag k v ++ renderFields rest := by
  simp [renderFields, renderTag]

theorem buildValue_obj (fs : XmlFields) :
    buildValue (XmlValue.obj fs) = '\n' :: renderFields fs := by
  simp [buildValue]

theorem seg_renderTag_insertJs (k : String) (v : XmlValue) :
    ∀ (fs : XmlFields), renderTag k v <:+: renderFields (XmlFields.insertJs fs k v)
  | XmlFields.nil => by
    rw [show XmlFields.insertJs XmlFields.nil k v = XmlFields.cons k v XmlFields.nil from rfl]
    rw [renderFields_cons]
    exact ⟨[], renderFields XmlFields.nil, by simp⟩
  | XmlFields.cons k' v' rest => by
    by_cases hk : k' = k
    · rw [show XmlFields.insertJs (XmlFields.cons k' v' rest) k v =
        XmlFields.cons k' v rest from by simp [XmlFields.insertJs, hk]]
      subst hk
      rw [renderFields_cons]
      exact ⟨[], renderFields rest, by simp⟩
    · rw [show XmlFields.insertJs (XmlFields.cons k' v' rest) k v =
        XmlFields.cons k' v' (XmlFields.insertJs rest k v) from by
          simp [XmlFields.insertJs, hk]]
      rw [renderFields_cons]
      exact seg_append_left _ (seg_renderTag_insertJs k v rest)

theorem seg_renderTag_value {x : List Char} (k : String) (v : XmlValue)
    (h : x <:+: buildValue v) : x <:+: renderTag k v := by
  have h1 : x <:+: buildValue v ++ ('<' :: '/' :: (k.data ++ ['>', '\n'])) :=
    seg_append_right _ h
  have h2 : x <:+: '>' :: (buildValue v ++ ('<' :: '/' :: (k.data ++ ['>', '\n']))) :=
    seg_cons _ h1
  have h3 : x <:+: k.data ++ '>' :: (buildValue v ++ ('<' :: '/' :: (k.data ++ ['>', '\n']))) :=
    seg_append_left _ h2
  have h4 := seg_cons '<' h3
  exact h4

theorem seg_out_of_seg_built {sub built : List Char}
    (h : sub <:+: built)
    (hhead : ∀ c, sub.head? = some c → isJsWS c = false)
    (hlast : ∀ c, sub.getLast? = some c → isJsWS c = false)
    (htrip : hasTriple sub = false) :
    sub <:+: collapseNl 0 (jsTrim built) := by
  have h1 := seg_jsTrim hhead hlast h
  have hh' : sub.head? ≠ some '\n' := by
    intro e
    have := hhead '\n' e
    simp [isJsWS] at this
  exact seg_collapseNl htrip hh' _ 0 h1

theorem trimCollapse_head {built : List Char} {c : Char}
    (h : (collapseNl 0 (jsTrim built)).head? = some c) : isJsWS c = false := by
  cases ht : jsTrim built with
  | nil =>
    rw [ht, collapseNl_nil] at h
    simp at h
  | cons c0 t' =>
    have hc0 : isJsWS c0 = false := jsTrim_head (by rw [ht]; rfl)
    have hc0nl : c0 ≠ '\n' := by
      intro e
      rw [e] at hc0
      simp [isJsWS] at hc0
    rw [ht, collapseNl_head hc0nl] at h
    cases h
    exact hc0

theorem trimCollapse_last {built : List Char} {c : Char}
    (h : (collapseNl 0 (jsTrim built)).getLast? = some c) : isJsWS c = false := by
  cases hg : (jsTrim built).getLast? with
  | none =>
    have hnil : jsTrim built = [] := List.getLast?_eq_none_iff.mp hg
    rw [hnil, collapseNl_nil] at h
    simp at h
  | some cL =>
    have hL : isJsWS cL = false := jsTrim_getLast hg
    have hLnl : cL ≠ '\n' := by
      intro e
      rw [e] at hL
      simp [isJsWS] at hL
    have := collapseNl_getLast hLnl (jsTrim built) 0 hg
    rw [this] at h
    cases h
    exact hL

theorem renderTag_str (k s : String) :
    renderTag k (XmlValue.str s) =
      ("<" ++ k ++ ">").data ++ s.data ++ ("</" ++ k ++ ">").data ++ ['\n'] := by
  simp [renderTag, buildValue, String.data_append]

theorem renderFields_aiFieldsOf (r : EnrichmentResult) :
    renderFields (aiFieldsOf r) =
      renderTag "skipUplift" (XmlValue.str "false") ++
        (renderTag "description" (XmlValue.str r.description) ++
          (renderTag "score" (XmlValue.str r.descriptionScore.repr) ++ [])) := by
  simp [aiFieldsOf, renderFields_cons]
  rfl

theorem wrapped_side_conditions {a d b : List Char}
    (ha : ∀ c ∈ a, c ≠ '\n') (hb : ∀ c ∈ b, c ≠ '\n')
    (hd : hasTriple d = false)
    (hahead : ∀ c, a.head? = some c → isJsWS c = false) (hane : a ≠ [])
    (hblast : ∀ c, b.getLast? = some c → isJsWS c = false) (hbne : b ≠ []) :
    (∀ c, (a ++ (d ++ b)).head? = some c → isJsWS c = false) ∧
    (∀ c, (a ++ (d ++ b)).getLast? = some c → isJsWS c = false) ∧
    hasTriple (a ++ (d ++ b)) = false := by
  refine ⟨?_, ?_, hasTriple_wrap ha hd hb⟩
  · intro c hc
    rw [List.head?_append] at hc
    cases ha' : a.head? with
    | none => exact absurd (List.head?_eq_none_iff.mp ha') hane
    | some c0 =>
      rw [ha'] at hc
      simp only [Option.or_some, Option.some.injEq] at hc
      subst hc
      exact hahead c0 ha'
  · intro c hc
    have hdbne : d ++ b ≠ [] := by
      intro e
      exact hbne (List.append_eq_nil.mp e).2
    rw [getLast?_append_right hdbne, getLast?_append_right hbne] at hc
    exact hblast c hc

theorem seg_builtOf {x : List Char} (top bf : XmlFields) (r : EnrichmentResult)
    (h : x <:+: renderFields (aiFieldsOf r)) : x <:+: builtOf top bf r := by
  have h1 : x <:+: buildValue (XmlValue.obj (aiFieldsOf r)) := by
    rw [buildValue_obj]
    exact seg_cons _ h
  have h2 : x <:+: renderTag "ai" (XmlValue.obj (aiFieldsOf r)) :=
    seg_renderTag_value _ _ h1
  have h3 : x <:+: renderFields (bf.insertJs "ai" (XmlValue.obj (aiFieldsOf r))) :=
    h2.trans (seg_renderTag_insertJs _ _ bf)
  have h4 : x <:+: buildValue
      (XmlValue.obj (bf.insertJs "ai" (XmlValue.obj (aiFieldsOf r)))) := by
    rw [buildValue_obj]
    exact seg_cons _ h3
  have h5 : x <:+: renderTag "LightningComponentBundle"
      (XmlValue.obj (bf.insertJs "ai" (XmlValue.obj (aiFieldsOf r)))) :=
    seg_renderTag_value _ _ h4
  exact h5.trans (seg_renderTag_insertJs _ _ top)

theorem seg_skipTag_ai (r : EnrichmentResult) :
    ("<skipUplift>false</skipUplift>").data <:+: renderFields (aiFieldsOf r) := by
  rw [renderFields_aiFieldsOf]
  have h : ("<skipUplift>false</skipUplift>").data <:+:
      renderTag "skipUplift" (XmlValue.str "false") := ⟨[], ['\n'], by decide⟩
  exact seg_append_right _ h

theorem descFull_eq (d : String) :
    ("<description>" ++ d ++ "</description>").data =
      "<description>".data ++ (d.data ++ "</description>".data) := by
  rw [String.append_assoc, String.data_append, String.data_append]

theorem scoreFull_eq (s : String) :
    ("<score>" ++ s ++ "</score>").data =
      "<score>".data ++ (s.data ++ "</score>".data) := by
  rw [String.append_assoc, String.data_append, String.data_append]

theorem seg_descTag_ai (r : EnrichmentResult) :
    ("<description>" ++ r.description ++ "</description>").data <:+:
      renderFields (aiFieldsOf r) := by
  rw [renderFields_aiFieldsOf]
  have e : renderTag "description" (XmlValue.str r.description) =
      ("<description>" ++ r.description ++ "</description>").data ++ ['\n'] := by
    rw [renderTag_str, descFull_eq]
    simp
  have h : ("<description>" ++ r.description ++ "</description>").data <:+:
      renderTag "description" (XmlValue.str r.description) :=
    ⟨[], ['\n'], by rw [e]; simp⟩
  exact seg_append_left _ (seg_append_right _ h)

theorem seg_scoreTag_ai (r : EnrichmentResult) :
    ("<score>" ++ r.descriptionScore.repr ++ "</score>").data <:+:
      renderFields (aiFieldsOf r) := by
  rw [renderFields_aiFieldsOf]
  have e : renderTag "score" (XmlValue.str r.descriptionScore.repr) =
      ("<score>" ++ r.descriptionScore.repr ++ "</score>").data ++ ['\n'] := by
    rw [renderTag_str, scoreFull_eq]
    simp
  have h : ("<score>" ++ r.descriptionScore.repr ++ "</score>").data <:+:
      renderTag "score" (XmlValue.str r.descriptionScore.repr) :=
    ⟨[], ['\n'], by rw [e]; simp⟩
  exact seg_append_left _ (seg_append_left _ (seg_append_right _ h))

theorem head_const_ws {l : List Char} (c0 : Char) (h : l.head? = some c0)
    (hws : isJsWS c0 = false) : ∀ c, l.head? = some c → isJsWS c = false := by
  intro c hc
  rw [h] at hc
  cases hc
  exact hws

theorem last_const_ws {l : List Char} (c0 : Char) (h : l.getLast? = some c0)
    (hws : isJsWS c0 = false) : ∀ c, l.getLast? = some c → isJsWS c = false := by
  intro c hc
  rw [h] at hc
  cases hc
  exact hws

theorem c8core (top bf : XmlFields) (r : EnrichmentResult)
    (hdesc : hasTriple r.description.data = false)
    (hscore : ∀ c ∈ r.descriptionScore.repr.data, c ≠ '\n') :
    ("<skipUplift>false</skipUplift>").data <:+: patchedOut top bf r ∧
    r.description.data <:+: patchedOut top bf r ∧
    ("<description>" ++ r.description ++ "</description>").data <:+: patchedOut top bf r ∧
    ("<score>" ++ r.descriptionScore.repr ++ "</score>").data <:+: patchedOut top bf r ∧
    hasTriple (patchedOut top bf r) = false ∧
    (∀ c, (patchedOut top bf r).head? = some c → isJsWS c = false) ∧
    (∀ c, (patchedOut top bf r).getLast? = some c → isJsWS c = false) := by
  have hskip : ("<skipUplift>false</skipUplift>").data <:+: patchedOut top bf r := by
    apply seg_out_of_seg_built (seg_builtOf top bf r (seg_skipTag_ai r))
    · exact head_const_ws '<' rfl (by decide)
    · exact last_const_ws '>' (by decide) (by decide)
    · decide
  have hdescSide := wrapped_side_conditions
    (a := "<description>".data) (d := r.description.data) (b := "</description>".data)
    (by decide) (by decide) hdesc
    (head_const_ws '<' rfl (by decide)) (by decide)
    (last_const_ws '>' (by decide) (by decide)) (by decide)
  have hdescFull : ("<description>" ++ r.description ++ "</description>").data <:+:
      patchedOut top bf r := by
    apply seg_out_of_seg_built (seg_builtOf top bf r (seg_descTag_ai r))
    · rw [descFull_eq]
      exact hdescSide.1
    · rw [descFull_eq]
      exact hdescSide.2.1
    · rw [descFull_eq]
      exact hdescSide.2.2
  have hdescOnly : r.description.data <:+: patchedOut top bf r := by
    refine List.IsInfix.trans ?_ hdescFull
    exact ⟨"<description>".data, "</description>".data, by rw [descFull_eq, List.append_assoc]⟩
  have hscoreTriple : hasTriple (r.descriptionScore.repr.data) = false :=
    hasTriple_eq_false_of_nlfree hscore
  have hscoreSide := wrapped_side_conditions
    (a := "<score>".data) (d := r.descriptionScore.repr.data) (b := "</score>".data)
    (by decide) (by decide) hscoreTriple
    (head_const_ws '<' rfl (by decide)) (by decide)
    (last_const_ws '>' (by decide) (by decide)) (by decide)
  have hscoreFull : ("<score>" ++ r.descriptionScore.repr ++ "</score>").data <:+:
      patchedOut top bf r := by
    apply seg_out_of_seg_built (seg_builtOf top bf r (seg_scoreTag_ai r))
    · rw [scoreFull_eq]
      exact hscoreSide.1
    · rw [scoreFull_eq]
      exact hscoreSide.2.1
    · rw [scoreFull_eq]
      exact hscoreSide.2.2
  refine ⟨hskip, hdescOnly, hdescFull, hscoreFull, ?_, ?_, ?_⟩
  · exact (hasTriple_collapseNl _ 0).1
  · intro c hc
    exact trimCollapse_head hc
  · intro c hc
    exact trimCollapse_last hc

/-! ## Handler record/name helpers -/

theorem record_name (n : String) (c : SourceComponent) (st : Option EnrichmentStatus)
    (ms : Option String) : (createEnrichmentRequestRecord n c st ms).componentName = n := by
  unfold createEnrichmentRequestRecord
  split <;> rfl

theorem sendEnrichmentRequests_names (net : Net) (records : List EnrichmentRequestRecord) :
    (sendEnrichmentRequests net records).map (fun r => r.componentName) =
      records.map (fun r => r.componentName) := by
  unfold sendEnrichmentRequests
  rw [List.map_map]
  apply List.map_congr_left
  intro r _
  show (match sendEnrichmentRequest net r with
    | Except.ok updated => updated
    | Except.error errorMessage =>
      { r with
          response := none
          message := some errorMessage
          status := EnrichmentStatus.FAIL }).componentName = r.componentName
  unfold sendEnrichmentRequest
  cases net API_ENDPOINT_ENRICHMENT (payloadOf r) <;> rfl

theorem createRecords_names (components : List SourceComponent)
    (st : Option EnrichmentStatus) (ms : Option String) :
    (createEnrichmentRequestRecords components st ms).map (fun r => r.componentName) =
      components.filterMap (fun c => truthyStr (jsOrElse c.fullName c.name)) := by
  induction components with
  | nil => rfl
  | cons c cs ih =>
    unfold createEnrichmentRequestRecords at ih ⊢
    rw [List.filterMap_cons, List.filterMap_cons]
    cases ht : truthyStr (jsOrElse c.fullName c.name) with
    | none => simpa using ih
    | some n =>
      rw [List.map_cons, record_name, ih]

/-- C5: for every mixed input list, enrich returns all eligible (LWC)
components' records before all ineligible components' records, and within
each partition the records appear in the original input order of their
components (components with an unresolvable name yield no record). -/
theorem enrich_eligible_first (net : Net) (components : List SourceComponent) :
    (enrich net components).map (fun r => r.componentName) =
      (components.filter isLwcType).filterMap
        (fun c => truthyStr (jsOrElse c.fullName c.name)) ++
      (components.filter (fun c => !(isLwcType c))).filterMap
        (fun c => truthyStr (jsOrElse c.fullName c.name)) := by
  unfold enrich lwcRecords nonLwcRecords
  rw [List.map_append, sendEnrichmentRequests_names, createRecords_names,
    createRecords_names]

/-- C2: merging network results into the record store overwrites the matched
record's requestBody, response and message with the incoming values; the
status of a SKIPPED record is never changed, while a matched record in any
other status becomes SUCCESS when the incoming response is non-null and FAIL
otherwise (unmatched records are untouched). -/
theorem updateWithResults_status_transitions
    (recordSet results : List EnrichmentRequestRecord)
    (i : Nat) (r : EnrichmentRequestRecord) (h : recordSet[i]? = some r) :
    ∃ r', (updateWithResults recordSet results)[i]? = some r' ∧
      (match resultsLookup results r.componentName with
       | none => r' = r
       | some p =>
         r'.requestBody = p.requestBody ∧ r'.response = p.response ∧
           r'.message = p.message ∧
           (r.status = EnrichmentStatus.SKIPPED →
             r'.status = EnrichmentStatus.SKIPPED) ∧
           (r.status ≠ EnrichmentStatus.SKIPPED →
             r'.status = if p.response.isSome then EnrichmentStatus.SUCCESS
               else EnrichmentStatus.FAIL)) := by
  unfold updateWithResults
  rw [List.getElem?_map, h]
  refine ⟨_, rfl, ?_⟩
  cases hp : resultsLookup results r.componentName with
  | none => simp [hp]
  | some p =>
    simp only [hp]
    refine ⟨?_, ?_, ?_, ?_, ?_⟩
    · simp
    · simp
    · simp
    · intro hs
      simp [hs]
    · intro hs
      simp [hs]

/-- Witness for C2 at a concrete SKIPPED record and a matching incoming
record carrying a response. -/
theorem updateWithResults_status_transitions_witness :
    ([recSkip][0]? = some recSkip) ∧
    (∃ r', (updateWithResults [recSkip] [recIncoming])[0]? = some r' ∧
      (match resultsLookup [recIncoming] recSkip.componentName with
       | none => r' = recSkip
       | some p =>
         r'.requestBody = p.requestBody ∧ r'.response = p.response ∧
           r'.message = p.message ∧
           (recSkip.status = EnrichmentStatus.SKIPPED →
             r'.status = EnrichmentStatus.SKIPPED) ∧
           (recSkip.status ≠ EnrichmentStatus.SKIPPED →
             r'.status = if p.response.isSome then EnrichmentStatus.SUCCESS
               else EnrichmentStatus.FAIL))) :=
  ⟨rfl, updateWithResults_status_transitions [recSkip] [recIncoming] 0 recSkip rfl⟩

/-! ## Metrics fold invariants -/

theorem metrics_fold_counts : ∀ (rs : List EnrichmentRequestRecord) (m : EnrichmentMetrics),
    ((rs.foldl metricsStep m).total =
      m.total + (rs.filter (fun r => !(typeNameOf r == ""))).length) ∧
    ((rs.foldl metricsStep m).success.count + (rs.foldl metricsStep m).fail.count +
        (rs.foldl metricsStep m).skipped.count =
      m.success.count + m.fail.count + m.skipped.count +
        (rs.filter (fun r => !(typeNameOf r == ""))).length) := by
  intro rs
  induction rs with
  | nil => intro m; simp
  | cons r rs' ih =>
    intro m
    rw [List.foldl_cons, List.filter_cons]
    by_cases ht : typeNameOf r = ""
    · have hb : (!(typeNameOf r == "")) = false := by simp [ht]
      rw [hb]
      have hstep : metricsStep m r = m := by
        unfold metricsStep
        simp [ht]
      rw [if_neg (by simp)]
      rw [hstep]
      exact ih m
    · have hb : (!(typeNameOf r == "")) = true := by simp [ht]
      rw [hb, if_pos rfl, List.length_cons]
      obtain ⟨ih1, ih2⟩ := ih (metricsStep m r)
      have hstep : (metricsStep m r).total = m.total + 1 ∧
          (metricsStep m r).success.count + (metricsStep m r).fail.count +
            (metricsStep m r).skipped.count =
          m.success.count + m.fail.count + m.skipped.count + 1 := by
        unfold metricsStep
        simp only [ht, if_neg ht]
        cases r.status <;>
          simp [addSuccessComponent, addFailComponent, addSkippedComponent] <;> omega
      refine ⟨?_, ?_⟩
      · rw [ih1, hstep.1]
        omega
      · rw [ih2, hstep.2]
        omega

/-- C10: createEnrichmentMetrics silently excludes from all three buckets and
from the grand total every record whose type name cannot be determined
(typeNameOf yields the empty string: no componentType object and no usable
first response result); success.count + fail.count + skipped.count always
equals total, total counts exactly the type-determinable records, and total
can be strictly less than the number of input records. -/
theorem createEnrichmentMetrics_excludes_undetermined :
    (∀ rs : List EnrichmentRequestRecord,
      (createEnrichmentMetrics rs).success.count + (createEnrichmentMetrics rs).fail.count +
          (createEnrichmentMetrics rs).skipped.count = (createEnrichmentMetrics rs).total ∧
      (createEnrichmentMetrics rs).total =
        (rs.filter (fun r => !(typeNameOf r == ""))).length ∧
      (createEnrichmentMetrics rs).total ≤ rs.length) ∧
    (createEnrichmentMetrics [recNoType]).total = 0 ∧
    ([recNoType] : List EnrichmentRequestRecord).length = 1 := by
  refine ⟨?_, by decide, rfl⟩
  intro rs
  obtain ⟨h1, h2⟩ := metrics_fold_counts rs emptyEnrichmentMetrics
  unfold createEnrichmentMetrics
  have he1 : emptyEnrichmentMetrics.total = 0 := rfl
  have he2 : emptyEnrichmentMetrics.success.count = 0 := rfl
  have he3 : emptyEnrichmentMetrics.fail.count = 0 := rfl
  have he4 : emptyEnrichmentMetrics.skipped.count = 0 := rfl
  rw [he1] at h1
  rw [he2, he3, he4] at h2
  refine ⟨?_, ?_, ?_⟩
  · rw [h2, h1]
  · rw [h1]
    omega
  · rw [h1]
    have := List.length_filter_le (fun r => !(typeNameOf r == "")) rs
    omega

/-- C3 (code bug): a rejected POST yields a FAIL record with null response,
but the record's message is the enrichment-request wrapper text built from
the component name only — the two runs below differ only in the rejecting
error's text yet produce identical messages, so the original error text is
discarded rather than captured verbatim. -/
theorem enrich_fail_message_not_verbatim :
    (enrich (failNet "API request failed") [compWithFile]).map (fun r => r.status) =
      [EnrichmentStatus.FAIL] ∧
    (enrich (failNet "API request failed") [compWithFile]).map (fun r => r.response) =
      [none] ∧
    (enrich (failNet "API request failed") [compWithFile]).map (fun r => r.message) =
      [some (getMessageErrorEnrichmentRequest "cmp")] ∧
    (enrich (failNet "API request failed") [compWithFile]).map (fun r => r.message) =
      (enrich (failNet "a completely different network error") [compWithFile]).map
        (fun r => r.message) := by
  refine ⟨by decide, by decide, by decide, by decide⟩

/-- C4 (code bug): the POST issued for an eligible file-bearing component
goes to the fixed enrichment endpoint, but `requestPost` is called without an
options argument, so no X-Chatter-Entity-Encoding header is attached. -/
theorem enrich_posts_endpoint_no_header :
    (enrichPosts [compWithFile]).map (fun p => p.url) = [API_ENDPOINT_ENRICHMENT] ∧
    (enrichPosts [compWithFile]).map (fun p => p.headers) =
      [([] : List (String × String))] ∧
    (enrichPosts [compWithFile]).map
        (fun p => decide ((ENRICHMENT_REQUEST_ENTITY_ENCODING_HEADER, "false") ∈ p.headers)) =
      [false] := by
  refine ⟨by decide, by decide, by decide⟩

/-- C6 (code bug): with three eligible file-bearing components where exactly
the second POST rejects, exactly one record is FAIL and the others are
SUCCESS with their responses populated — but the FAIL record's message is the
component-name wrapper text, not the rejecting call's message text (two runs
differing only in the error text give identical messages). -/
theorem enrich_partial_failure_isolation :
    (enrich (netFailSecond "boom") comps3).map (fun r => r.status) =
      [EnrichmentStatus.SUCCESS, EnrichmentStatus.FAIL, EnrichmentStatus.SUCCESS] ∧
    (enrich (netFailSecond "boom") comps3).map (fun r => r.response) =
      [some sampleResponse, none, some sampleResponse] ∧
    (enrich (netFailSecond "boom") comps3).map (fun r => r.message) =
      [none, some (getMessageErrorEnrichmentRequest "comp2"), none] ∧
    (enrich (netFailSecond "boom") comps3).map (fun r => r.message) =
      (enrich (netFailSecond "an entirely different error text") comps3).map
        (fun r => r.message) := by
  refine ⟨by decide, by decide, by decide, by decide⟩

/-- C9 (code bug): the fixed lookup table maps LightningComponentBundle to
Lwc, but createEnrichmentRequestBody hardcodes the metadata-type tag to
"Generic", so the body sent for an LWC component carries "Generic" instead of
the mapped value. -/
theorem requestBody_metadataType_not_mapped :
    (createEnrichmentRequestBody (createContentBundle "cmp" [fileA])).metadataType =
      "Generic" ∧
    mapSourceComponentTypeToMetadataType LWC_METADATA_TYPE_NAME = METADATA_TYPE_LWC ∧
    METADATA_TYPE_LWC ≠ "Generic" ∧
    (enrichPosts [compWithFile]).map
        (fun p => match p.payload with
          | RequestPayload.body b => some b.metadataType
          | RequestPayload.emptyObject => none) = [some "Generic"] := by
  refine ⟨by decide, by decide, by decide, by decide⟩

/-- C1 counterexample: an eligible LightningComponentBundle component whose
file read yields zero files gets a record with a null request body, yet a
POST (with an empty body) is still dispatched for it, and when that POST
resolves the record's final status is SUCCESS, not SKIPPED. -/
theorem enrich_zero_files_counterexample :
    (lwcRecords [compNoFiles]).map (fun r => r.requestBody) = [none] ∧
    enrichPosts [compNoFiles] =
      [{ url := API_ENDPOINT_ENRICHMENT, payload := RequestPayload.emptyObject
         headers := [] }] ∧
    (enrich okNet [compNoFiles]).map (fun r => r.status) = [EnrichmentStatus.SUCCESS] := by
  refine ⟨by decide, by decide, by decide⟩

/-- C1 (amended): an eligible component with zero read files is created as a
SKIPPED record with a null request body and the file-read explanatory
message, but a POST with an empty body is still dispatched for it, and the
POST outcome overwrites the record's status: SUCCESS when the call resolves,
FAIL (with the wrapper message) when it rejects. -/
theorem enrich_zero_files_amended (net : Net) (c : SourceComponent) (n : String)
    (htype : isLwcType c = true)
    (hname : truthyStr (jsOrElse c.fullName c.name) = some n)
    (hfiles : c.files = []) :
    lwcRecords [c] =
      [{ componentName := n, componentType := c.type, requestBody := none
         response := none, message := some (getMessageFileReadFailed n)
         status := EnrichmentStatus.SKIPPED }] ∧
    enrichPosts [c] =
      [{ url := API_ENDPOINT_ENRICHMENT, payload := RequestPayload.emptyObject
         headers := [] }] ∧
    enrich net [c] =
      [match net API_ENDPOINT_ENRICHMENT RequestPayload.emptyObject with
       | Except.ok resp =>
         { componentName := n, componentType := c.type, requestBody := none
           response := some resp, message := some (getMessageFileReadFailed n)
           status := EnrichmentStatus.SUCCESS }
       | Except.error _ =>
         { componentName := n, componentType := c.type, requestBody := none
           response := none, message := some (getMessageErrorEnrichmentRequest n)
           status := EnrichmentStatus.FAIL }] := by
  have hfilter1 : [c].filter isLwcType = [c] := by
    simp [List.filter_cons, htype]
  have hfilter2 : [c].filter (fun x => !(isLwcType x)) = [] := by
    simp [List.filter_cons, htype]
  have hrec : createEnrichmentRequestRecords [c] none none =
      [{ componentName := n, componentType := c.type, requestBody := none
         response := none, message := some (getMessageFileReadFailed n)
         status := EnrichmentStatus.SKIPPED }] := by
    unfold createEnrichmentRequestRecords
    rw [List.filterMap_cons, hname]
    unfold createEnrichmentRequestRecord
    rw [hfiles]
    rfl
  refine ⟨?_, ?_, ?_⟩
  · unfold lwcRecords
    rw [hfilter1, hrec]
  · unfold enrichPosts lwcRecords
    rw [hfilter1, hrec]
    rfl
  · unfold enrich lwcRecords nonLwcRecords
    rw [hfilter1, hfilter2, hrec]
    have hempty : createEnrichmentRequestRecords [] (some EnrichmentStatus.SKIPPED)
        (some getMessageErrorEnrichLwcOnly) = [] := rfl
    rw [hempty]
    unfold sendEnrichmentRequests sendEnrichmentRequest
    simp only [List.map_cons, List.map_nil, List.append_nil]
    cases hnet : net API_ENDPOINT_ENRICHMENT RequestPayload.emptyObject with
    | ok resp =>
      have hpay : payloadOf
          { componentName := n, componentType := c.type, requestBody := none
            response := none, message := some (getMessageFileReadFailed n)
            status := EnrichmentStatus.SKIPPED } = RequestPayload.emptyObject := rfl
      rw [hpay, hnet]
    | error e =>
      have hpay : payloadOf
          { componentName := n, componentType := c.type, requestBody := none
            response := none, message := some (getMessageFileReadFailed n)
            status := EnrichmentStatus.SKIPPED } = RequestPayload.emptyObject := rfl
      rw [hpay, hnet]

/-- Witness for the amended C1 at a concrete zero-file LWC component and a
connection that resolves every call. -/
theorem enrich_zero_files_amended_witness :
    isLwcType compNoFiles = true ∧
    truthyStr (jsOrElse compNoFiles.fullName compNoFiles.name) = some "cmp" ∧
    compNoFiles.files = [] ∧
    (lwcRecords [compNoFiles] =
      [{ componentName := "cmp", componentType := compNoFiles.type, requestBody := none
         response := none, message := some (getMessageFileReadFailed "cmp")
         status := EnrichmentStatus.SKIPPED }] ∧
    enrichPosts [compNoFiles] =
      [{ url := API_ENDPOINT_ENRICHMENT, payload := RequestPayload.emptyObject
         headers := [] }] ∧
    enrich okNet [compNoFiles] =
      [match okNet API_ENDPOINT_ENRICHMENT RequestPayload.emptyObject with
       | Except.ok resp =>
         { componentName := "cmp", componentType := compNoFiles.type, requestBody := none
           response := some resp, message := some (getMessageFileReadFailed "cmp")
           status := EnrichmentStatus.SUCCESS }
       | Except.error _ =>
         { componentName := "cmp", componentType := compNoFiles.type, requestBody := none
           response := none, message := some (getMessageErrorEnrichmentRequest "cmp")
           status := EnrichmentStatus.FAIL }]) :=
  ⟨by decide, by decide, by decide,
    enrich_zero_files_amended okNet compNoFiles "cmp" (by decide) (by decide) (by decide)⟩

/-! ## Per-file processing invariants -/

theorem processFile_pointwise (f : LwcFileRead) (rs : List EnrichmentRequestRecord)
    (j : Nat) (r : EnrichmentRequestRecord) (h : rs[j]? = some r) :
    ∃ r', (processFile f rs).1[j]? = some r' ∧
      r'.componentName = r.componentName ∧ r'.response = r.response ∧
      (r'.status = EnrichmentStatus.SKIPPED →
        r.status = EnrichmentStatus.SKIPPED ∨ r.response.isSome = true) := by
  unfold processFile
  split
  · exact ⟨r, h, rfl, rfl, fun hs => Or.inl hs⟩
  · split
    · exact ⟨r, h, rfl, rfl, fun hs => Or.inl hs⟩
    · rename_i i hfind
      split
      · exact ⟨r, h, rfl, rfl, fun hs => Or.inl hs⟩
      · rename_i record hidx
        split
        · exact ⟨r, h, rfl, rfl, fun hs => Or.inl hs⟩
        · rename_i response hresp
          split
          · exact ⟨r, h, rfl, rfl, fun hs => Or.inl hs⟩
          · rename_i res hres
            split
            · by_cases hij : i = j
              · subst hij
                have hrec : record = r := by
                  rw [hidx] at h
                  exact Option.some.inj h
                subst hrec
                have hlt : i < rs.length := by
                  by_contra hge
                  rw [List.getElem?_eq_none (by omega)] at hidx
                  exact Option.noConfusion hidx
                refine ⟨_, List.getElem?_set_self hlt, rfl, rfl, ?_⟩
                intro _
                right
                rw [hresp]
                rfl
              · refine ⟨r, ?_, rfl, rfl, fun hs => Or.inl hs⟩
                rw [List.getElem?_set_ne hij]
                exact h
            · split
              · exact ⟨r, h, rfl, rfl, fun hs => Or.inl hs⟩
              · by_cases hij : i = j
                · subst hij
                  have hrec : record = r := by
                    rw [hidx] at h
                    exact Option.some.inj h
                  subst hrec
                  have hlt : i < rs.length := by
                    by_contra hge
                    rw [List.getElem?_eq_none (by omega)] at hidx
                    exact Option.noConfusion hidx
                  refine ⟨_, List.getElem?_set_self hlt, rfl, rfl, ?_⟩
                  intro hs
                  left
                  exact hs
                · refine ⟨r, ?_, rfl, rfl, fun hs => Or.inl hs⟩
                  rw [List.getElem?_set_ne hij]
                  exact h

theorem updateMetadataFiles_fst : ∀ (files : List LwcFileRead)
    (rs : List EnrichmentRequestRecord) (ws : List (String × String)),
    (files.foldl
      (fun acc file =>
        let step := processFile file acc.1
        (step.1, acc.2 ++ step.2)) (rs, ws)).1 =
      files.foldl (fun acc f => (processFile f acc).1) rs := by
  intro files
  induction files with
  | nil => intro rs ws; rfl
  | cons f fs ih =>
    intro rs ws
    rw [List.foldl_cons, List.foldl_cons]
    exact ih _ _

theorem foldRecords_pointwise : ∀ (files : List LwcFileRead)
    (rs : List EnrichmentRequestRecord) (j : Nat) (r : EnrichmentRequestRecord),
    rs[j]? = some r →
    ∃ r', (files.foldl (fun acc f => (processFile f acc).1) rs)[j]? = some r' ∧
      r'.componentName = r.componentName ∧ r'.response = r.response ∧
      (r'.status = EnrichmentStatus.SKIPPED →
        r.status = EnrichmentStatus.SKIPPED ∨ r.response.isSome = true) := by
  intro files
  induction files with
  | nil => intro rs j r h; exact ⟨r, h, rfl, rfl, fun hs => Or.inl hs⟩
  | cons f fs ih =>
    intro rs j r h
    rw [List.foldl_cons]
    obtain ⟨r1, h1, hn1, hr1, hs1⟩ := processFile_pointwise f rs j r h
    obtain ⟨r2, h2, hn2, hr2, hs2⟩ := ih _ j r1 h1
    refine ⟨r2, h2, hn2.trans hn1, hr2.trans hr1, ?_⟩
    intro hs
    rcases hs2 hs with hsk | hresp
    · exact hs1 hsk
    · rw [hr1] at hresp
      exact Or.inr hresp

/-- C7: during configuration patching, a meta-xml file whose opt-out flag is
enabled (boolean true, or a string equal to "true" case-insensitively, under
LightningComponentBundle.ai.skipUplift) makes the matched record SKIPPED with
the explanatory message and performs no file write, the gate firing before
the write attempt; and across any run, a record can transition into SKIPPED
only when its response is non-null. -/
theorem lwc_skipUplift_gate :
    (∀ (f : LwcFileRead) (rs : List EnrichmentRequestRecord) (i : Nat)
        (record : EnrichmentRequestRecord) (response : EnrichMetadataResult)
        (res : EnrichmentResult),
      isMetaXmlFile f.filePath = true →
      isSkipUpliftEnabled f.parsed = true →
      rs.findIdx? (fun x => x.componentName == f.componentName) = some i →
      rs[i]? = some record →
      record.response = some response →
      response.results.head? = some res →
      updateMetadataFiles [f] rs =
        (rs.set i ({ record with
                     message := some "skipUplift is set to true"
                     status := EnrichmentStatus.SKIPPED }), [])) ∧
    (∀ (files : List LwcFileRead) (rs : List EnrichmentRequestRecord) (j : Nat)
        (r r' : EnrichmentRequestRecord),
      rs[j]? = some r →
      (updateMetadataFiles files rs).1[j]? = some r' →
      r'.status = EnrichmentStatus.SKIPPED →
      r.status ≠ EnrichmentStatus.SKIPPED →
      r.response.isSome = true) ∧
    (∀ top : XmlFields, lookupSkipUplift top = some (XmlValue.bool true) →
      isSkipUpliftEnabled (some top) = true) ∧
    (∀ (top : XmlFields) (s : String),
      lookupSkipUplift top = some (XmlValue.str s) → jsToLower s = "true" →
      isSkipUpliftEnabled (some top) = true) := by
  refine ⟨?_, ?_, ?_, ?_⟩
  · intro f rs i record response res h1 h2 h3 h4 h5 h6
    have hp : processFile f rs =
        (rs.set i ({ record with
                     message := some "skipUplift is set to true"
                     status := EnrichmentStatus.SKIPPED }), []) := by
      unfold processFile
      simp only [h1, h3, h4, h5, h6, h2, Bool.not_true]
      simp
    unfold updateMetadataFiles
    rw [List.foldl_cons, List.foldl_nil]
    simp only [hp, List.nil_append]
  · intro files rs j r r' h hfold hskip hnot
    rw [show updateMetadataFiles files rs =
        files.foldl
          (fun acc file =>
            let step := processFile file acc.1
            (step.1, acc.2 ++ step.2)) (rs, []) from rfl] at hfold
    rw [updateMetadataFiles_fst] at hfold
    obtain ⟨r2, h2, hn2, hr2, hs2⟩ := foldRecords_pointwise files rs j r h
    rw [h2] at hfold
    have : r2 = r' := Option.some.inj hfold
    subst this
    rcases hs2 hskip with hsk | hresp
    · exact absurd hsk hnot
    · exact hresp
  · intro top hlu
    simp [isSkipUpliftEnabled, hlu]
  · intro top s hlu hlow
    simp [isSkipUpliftEnabled, hlu, jsStringOf, hlow]

/-- Witness for C7 at a concrete meta-xml file whose parsed tree has
skipUplift set to the string "true" and a record carrying a response. -/
theorem lwc_skipUplift_gate_witness :
    isMetaXmlFile fileSkip.filePath = true ∧
    isSkipUpliftEnabled fileSkip.parsed = true ∧
    ([recSuccess].findIdx? (fun x => x.componentName == fileSkip.componentName) = some 0) ∧
    ([recSuccess][0]? = some recSuccess) ∧
    recSuccess.response = some sampleResponse ∧
    sampleResponse.results.head? = some sampleResult ∧
    updateMetadataFiles [fileSkip] [recSuccess] =
      ([recSuccess].set 0 ({ recSuccess with
                             message := some "skipUplift is set to true"
                             status := EnrichmentStatus.SKIPPED }), []) :=
  ⟨by decide, by decide, by decide, rfl, rfl, rfl,
    lwc_skipUplift_gate.1 fileSkip [recSuccess] 0 recSuccess sampleResponse sampleResult
      (by decide) (by decide) (by decide) rfl rfl rfl⟩

/-- C8 (amended): for every parsed markup tree lacking the enrichment
sub-structure and every enrichment result whose description has no run of
three or more newlines (such runs are rewritten by the final collapsing pass)
and whose stringified score contains no newline, updateMetaXml succeeds and
returns markup containing the opt-out flag forced to false, the exact
description string inside its element, and the stringified score inside its
element; the output has no 3-newline run and no leading or trailing
whitespace. -/
theorem updateMetaXml_round_trip (top : XmlFields) (r : EnrichmentResult)
    (hlacks : lacksEnrichmentSubstructure top = true)
    (hdesc : hasTriple r.description.data = false)
    (hscore : ∀ c ∈ r.descriptionScore.repr.data, c ≠ '\n') :
    ∃ out : String, updateMetaXml (some top) r = Except.ok out ∧
      ("<skipUplift>false</skipUplift>").data <:+: out.data ∧
      r.description.data <:+: out.data ∧
      ("<description>" ++ r.description ++ "</description>").data <:+: out.data ∧
      ("<score>" ++ r.descriptionScore.repr ++ "</score>").data <:+: out.data ∧
      hasTriple out.data = false ∧
      (∀ c, out.data.head? = some c → isJsWS c = false) ∧
      (∀ c, out.data.getLast? = some c → isJsWS c = false) := by
  cases hlook : getField "LightningComponentBundle" (XmlValue.obj top) with
  | none =>
    have heq : updateMetaXml (some top) r =
        Except.ok (String.mk (patchedOut top XmlFields.nil r)) := by
      simp only [updateMetaXml, hlook]
      rfl
    obtain ⟨p1, p2, p3, p4, p5, p6, p7⟩ := c8core top XmlFields.nil r hdesc hscore
    exact ⟨_, heq, p1, p2, p3, p4, p5, p6, p7⟩
  | some v =>
    cases v with
    | obj fs =>
      have heq : updateMetaXml (some top) r =
          Except.ok (String.mk (patchedOut top fs r)) := by
        simp only [updateMetaXml, hlook]
        rfl
      obtain ⟨p1, p2, p3, p4, p5, p6, p7⟩ := c8core top fs r hdesc hscore
      exact ⟨_, heq, p1, p2, p3, p4, p5, p6, p7⟩
    | str s =>
      have hfal : jsTruthy (XmlValue.str s) = false := by
        unfold lacksEnrichmentSubstructure at hlacks
        rw [hlook] at hlacks
        simpa using hlacks
      have heq : updateMetaXml (some top) r =
          Except.ok (String.mk (patchedOut top XmlFields.nil r)) := by
        simp only [updateMetaXml, hlook, hfal]
        rfl
      obtain ⟨p1, p2, p3, p4, p5, p6, p7⟩ := c8core top XmlFields.nil r hdesc hscore
      exact ⟨_, heq, p1, p2, p3, p4, p5, p6, p7⟩
    | bool b =>
      have hfal : jsTruthy (XmlValue.bool b) = false := by
        unfold lacksEnrichmentSubstructure at hlacks
        rw [hlook] at hlacks
        simpa using hlacks
      have heq : updateMetaXml (some top) r =
          Except.ok (String.mk (patchedOut top XmlFields.nil r)) := by
        simp only [updateMetaXml, hlook, hfal]
        rfl
      obtain ⟨p1, p2, p3, p4, p5, p6, p7⟩ := c8core top XmlFields.nil r hdesc hscore
      exact ⟨_, heq, p1, p2, p3, p4, p5, p6, p7⟩
    | num n =>
      have hfal : jsTruthy (XmlValue.num n) = false := by
        unfold lacksEnrichmentSubstructure at hlacks
        rw [hlook] at hlacks
        simpa using hlacks
      have heq : updateMetaXml (some top) r =
          Except.ok (String.mk (patchedOut top XmlFields.nil r)) := by
        simp only [updateMetaXml, hlook, hfal]
        rfl
      obtain ⟨p1, p2, p3, p4, p5, p6, p7⟩ := c8core top XmlFields.nil r hdesc hscore
      exact ⟨_, heq, p1, p2, p3, p4, p5, p6, p7⟩

set_option maxRecDepth 8192 in
/-- C8 counterexample: with a description containing a run of three newlines,
the collapsing pass rewrites the run inside the description, so the returned
markup does not contain the exact description string — the original claim,
quantified over every enrichment result, fails here. -/
theorem updateMetaXml_newline_counterexample :
    lacksEnrichmentSubstructure cexTop = true ∧
    updateMetaXml (some cexTop) cexResult =
      Except.ok "<LightningComponentBundle>\n<ai>\n<skipUplift>false</skipUplift>\n<description>a\n\nb</description>\n<score>0.9</score>\n</ai>\n</LightningComponentBundle>" ∧
    ¬ (cexResult.description.data <:+:
        ("<LightningComponentBundle>\n<ai>\n<skipUplift>false</skipUplift>\n<description>a\n\nb</description>\n<score>0.9</score>\n</ai>\n</LightningComponentBundle>" : String).data) := by
  refine ⟨by decide, by rfl, by decide⟩

/-- Witness for the amended C8 at a concrete empty bundle element and a
single-line description. -/
theorem updateMetaXml_round_trip_witness :
    lacksEnrichmentSubstructure cexTop = true ∧
    hasTriple sampleResult.description.data = false ∧
    (∀ c ∈ sampleResult.descriptionScore.repr.data, c ≠ '\n') ∧
    (∃ out : String, updateMetaXml (some cexTop) sampleResult = Except.ok out ∧
      ("<skipUplift>false</skipUplift>").data <:+: out.data ∧
      sampleResult.description.data <:+: out.data ∧
      ("<description>" ++ sampleResult.description ++ "</description>").data <:+: out.data ∧
      ("<score>" ++ sampleResult.descriptionScore.repr ++ "</score>").data <:+: out.data ∧
      hasTriple out.data = false ∧
      (∀ c, out.data.head? = some c → isJsWS c = false) ∧
      (∀ c, out.data.getLast? = some c → isJsWS c = false)) :=
  ⟨by decide, by decide, by decide,
    updateMetaXml_round_trip cexTop sampleResult (by decide) (by decide) (by decide)⟩
